import Mathlib

/-!
Verification of the table column-resize subsystem of this repository.

The embedded code is the TableColumnResizeEditing plugin found in
src/packages/ckeditor5-link/src/anchorediting.ts (second embedded module):
the columnWidths post-fixer registered by _registerPostFixer, and the
pointer-driven resize controller (_onMouseDownHandler, _onMouseMoveHandler,
_onMouseUpHandler, _getResizingData).

Abstraction notes, shared by all definitions below:

* Width percentages are rational numbers.  The columnWidths attribute is a
  comma-separated string of tokens of the form "<number>%" in the program;
  since each token encodes exactly one number and the join/split with "," is
  a bijection between token lists and such strings, the attribute is
  represented here by the parsed list of numbers, and the string comparison
  performed by the program before writing the attribute back is represented
  by equality of the number lists.  Likewise a width style such as "45.5%"
  on a view element is represented by the number 45.5.
* The helper module tablecolumnresize/utils and tablecolumnresize/constants
  are imported by the plugin but are not part of the provided sources; the
  helpers (toPrecision, clamp, sumArray, createFilledArray,
  normalizeColumnWidths, COLUMN_MIN_WIDTH_IN_PIXELS) are therefore modelled
  from the specification, as marked on each definition.
* getColumnMinWidthAsPercentage is likewise absent; since it only reads the
  rendered table geometry, its result is passed around as an explicit
  parameter (minPct) of the post-fixer pass.
* Map objects keyed by cell identity are modelled by association lists keyed
  by a natural-number cell identifier.
-/

/-- Modelled from the spec: precision rounding of width percentages
("pure functions for ... precision rounding"); rounds to two decimal
places, half away from zero upwards, as JavaScript Math.round does after
scaling by 10^2. -/
def toPrecision (x : ℚ) : ℚ := ((⌊x * 100 + 1 / 2⌋ : ℤ) : ℚ) / 100

/-- Modelled from the spec: array summation helper (sumArray in the source
imports, absent from the provided sources). -/
def sumArray (l : List ℚ) : ℚ := l.foldl (fun a b => a + b) 0

/-- Modelled from the spec: an array of a given length filled with one
value (createFilledArray in the source imports). -/
def createFilledArray (n : Nat) (x : ℚ) : List ℚ := List.replicate n x

/-- Modelled from the spec: clamping of the drag delta into an interval
("Clamp delta to [...] such that ..."). -/
def clamp (x lo hi : ℚ) : ℚ := if x ≤ lo then lo else if hi ≤ x then hi else x

/-- Modelled from the spec: the absolute minimum column width in pixels
("an absolute minimum pixel width", constants module absent from the
provided sources).  The claims proved below do not depend on the concrete
value, only on its positivity. -/
def COLUMN_MIN_WIDTH_IN_PIXELS : ℚ := 40

/-- Adds a delta to the last entry of a list (used by the normalization to
redistribute the rounding remainder). -/
def adjustLast : List ℚ → ℚ → List ℚ
  | [], _ => []
  | [x], d => [x + d]
  | x :: y :: xs, d => x :: adjustLast (y :: xs) d

/-- Modelled from the spec: "Parse current columnWidths into a sequence of
numbers; normalize so they sum to exactly 100 (redistribute rounding
remainder)".  A sequence already summing to 100 is returned unchanged;
otherwise every entry is rescaled and rounded to precision and the rounding
remainder is added to the last entry. -/
def normalizeColumnWidths (ws : List ℚ) : List ℚ :=
  if sumArray ws = 100 then ws
  else
    let scaled := ws.map (fun w => toPrecision (w * 100 / sumArray ws))
    adjustLast scaled (100 - sumArray scaled)

/-- JavaScript "array[i] += d" for an index in range; for an index out of
range the program would produce NaN, which is outside this embedding: every
theorem below that reaches this operation carries an in-range hypothesis,
and out of range the operation is modelled as the identity. -/
def addAt : List ℚ → Nat → ℚ → List ℚ
  | [], _, _ => []
  | x :: xs, 0, d => (x + d) :: xs
  | x :: xs, n + 1, d => x :: addAt xs n d

/-- One slot yielded by the TableWalker: a cell (by identity) together with
the column index it currently occupies. -/
structure CellSlot where
  cell : Nat
  column : Nat
deriving DecidableEq

/-- The _columnIndexMap member: a map from cell identity to the column
index the cell occupied at the last reconciliation. -/
abbrev ColumnIndexMap := List (Nat × Nat)

/-- Map lookup (Map.get / Map.has in the source). -/
def lookupCell : ColumnIndexMap → Nat → Option Nat
  | [], _ => none
  | (k, v) :: rest, c => if k = c then some v else lookupCell rest c

/-- Map insertion/replacement (Map.set in the source). -/
def setCell : ColumnIndexMap → Nat → Nat → ColumnIndexMap
  | [], c, v => [(c, v)]
  | (k, w) :: rest, c, v =>
      if k = c then (c, v) :: rest else (k, w) :: setCell rest c v

/-- The loop state of the per-table body of the post-fixer: the width
sequence being adjusted, the column index map, the two once-per-pass
flags and the changed flag returned to the document. -/
structure FixerAcc where
  widths : List ℚ
  map : ColumnIndexMap
  insertionHandled : Bool
  deletionHandled : Bool
  changed : Bool
deriving DecidableEq

/-- The body of "for (const { cell, column } of new TableWalker(table))"
in _registerPostFixer (steps (2), (3.1) of the source): an untracked cell
is recorded; a tracked cell whose stored index is smaller detects an
insertion (handled once per pass by splicing minimum-width columns at the
stored position); a stored index that is larger detects a deletion
(handled once by removing the entries and donating their sum to the
column left of the removal point, or to the new first column when the
removal point is 0). -/
def postFixStep (minPct : ℚ) (acc : FixerAcc) (slot : CellSlot) : FixerAcc :=
  match lookupCell acc.map slot.cell with
  | none =>
      { acc with map := setCell acc.map slot.cell slot.column, changed := true }
  | some previousColumn =>
      if previousColumn < slot.column then
        if acc.insertionHandled then
          { acc with map := setCell acc.map slot.cell slot.column, changed := true }
        else
          { acc with
              widths := acc.widths.take previousColumn
                ++ createFilledArray (slot.column - previousColumn) minPct
                ++ acc.widths.drop previousColumn,
              insertionHandled := true,
              map := setCell acc.map slot.cell slot.column,
              changed := true }
      else if slot.column < previousColumn then
        if acc.deletionHandled then
          { acc with map := setCell acc.map slot.cell slot.column, changed := true }
        else
          { acc with
              widths := addAt
                (acc.widths.take slot.column ++ acc.widths.drop previousColumn)
                (if 0 < slot.column then slot.column - 1 else slot.column)
                (sumArray ((acc.widths.drop slot.column).take (previousColumn - slot.column))),
              deletionHandled := true,
              map := setCell acc.map slot.cell slot.column,
              changed := true }
      else acc

/-- The outcome of the per-table body of the post-fixer. -/
structure FixerResult where
  attrOut : List ℚ
  map : ColumnIndexMap
  insertionHandled : Bool
  deletionHandled : Bool
  insertionAtEnd : Bool
  deletionAtEnd : Bool
  wrote : Bool
  changed : Bool
deriving DecidableEq

/-- The walking phase of the per-table body: the parsed attribute is
normalized and every cell slot is processed by postFixStep, starting from
cleared once-per-pass flags. -/
def postFixFold (minPct : ℚ) (slots : List CellSlot) (map0 : ColumnIndexMap)
    (ws : List ℚ) : FixerAcc :=
  slots.foldl (postFixStep minPct)
    { widths := normalizeColumnWidths ws, map := map0,
      insertionHandled := false, deletionHandled := false, changed := false }

/-- Steps (3.2) of _registerPostFixer: reconcile the width sequence length
against the structural column count at the tail.  More columns than
entries appends minimum-width entries; fewer removes the surplus entries
and donates their sum to the last remaining column.  Both conditions are
computed from the sequence length before either splice, as in the source
(they are mutually exclusive). -/
def tailWidths (minPct : ℚ) (numberOfColumns : Nat) (w : List ℚ) : List ℚ :=
  let isColumnInsertionAtEnd := w.length < numberOfColumns
  let isColumnDeletionAtEnd := numberOfColumns < w.length
  let w1 := if isColumnInsertionAtEnd then
      w ++ createFilledArray (numberOfColumns - w.length) minPct
    else w
  if isColumnDeletionAtEnd then
    addAt (w1.take numberOfColumns) (numberOfColumns - 1)
      (sumArray (w1.drop numberOfColumns))
  else w1

/-- The per-table body of the post-fixer registered by _registerPostFixer:
normalize the parsed columnWidths attribute, walk the cell slots with
postFixStep, reconcile the sequence length against the structural column
count at the tail (steps (3.2)), and write the re-serialized sequence back
only when it differs from the stored attribute.

The source reads the attribute unconditionally
(table.getAttribute("columnWidths").split(",")), so for a table without
the attribute the body is undefined (a TypeError in JavaScript); this is
modelled by returning none. -/
def postFixTable (minPct : ℚ) (numberOfColumns : Nat) (slots : List CellSlot)
    (map0 : ColumnIndexMap) (attr : Option (List ℚ)) : Option FixerResult :=
  match attr with
  | none => none
  | some ws =>
      let acc := postFixFold minPct slots map0 ws
      let widths := tailWidths minPct numberOfColumns acc.widths
      let wrote : Bool := if ws = widths then false else true
      some { attrOut := widths, map := acc.map,
             insertionHandled := acc.insertionHandled,
             deletionHandled := acc.deletionHandled,
             insertionAtEnd := decide (acc.widths.length < numberOfColumns),
             deletionAtEnd := decide (numberOfColumns < acc.widths.length),
             wrote := wrote,
             changed := acc.changed || wrote }

/-! ## Resize interaction controller

Embedding of _onMouseDownHandler, _onMouseMoveHandler, _onMouseUpHandler and
_getResizingData for a single table.  The view state keeps the width styles
of the colgroup columns (as numbers, see header), the width style of the
enclosing figure, and the two classes the controller toggles; the model
state keeps the two table attributes.  The two resize commands are not part
of the provided sources; their effect is modelled from the spec
(section 4.3: "(a) set the table width attribute and its columns width
attribute together; (b) set only the columns width attribute"), and every
execution is also recorded in the returned command list. -/

/-- The view-revert loop of _onMouseUpHandler: each col element of the
colgroup receives the next entry shifted from the split stored attribute.
With fewer attribute entries than col elements the source would write an
undefined style; that situation is excluded by hypothesis wherever this is
used, and modelled by leaving the style unchanged. -/
def restoreColStyles : List ℚ → List ℚ → List ℚ
  | [], _ => []
  | viewCol :: rest, [] => viewCol :: rest
  | _ :: rest, w :: ws => w :: restoreColStyles rest ws

/-- The flags member of _resizingData. -/
structure ResizingFlags where
  isRightEdge : Bool
  isTableCentered : Bool
  isLtrContent : Bool
deriving DecidableEq

/-- The widths member of _resizingData (pixel geometry captured at press
time).  In the source rightColumnWidth is undefined when isRightEdge; the
handler never reads it in that case, and it is modelled by 0 there. -/
structure ResizingWidths where
  viewFigureParentWidth : ℚ
  viewFigureWidth : ℚ
  tableWidth : ℚ
  leftColumnWidth : ℚ
  rightColumnWidth : ℚ
deriving DecidableEq

/-- The _resizingData member: the temporary storage opened on press and
purged on release.  The element references of the source are represented
by the index of the left column (the right column is the next index). -/
structure ResizingData where
  columnPosition : ℚ
  leftColumnIndex : Nat
  flags : ResizingFlags
  widths : ResizingWidths
deriving DecidableEq

/-- Width-related rendered state of the table view. -/
structure ViewTableState where
  colgroup : Option (List ℚ)
  figureWidthStyle : Option ℚ
  tableResizedClass : Bool
  resizerActiveClass : Bool
deriving DecidableEq

/-- The two width attributes of the model table element. -/
structure ModelTableState where
  columnWidths : Option (List ℚ)
  tableWidth : Option ℚ
deriving DecidableEq

/-- The mutable state of the TableColumnResizeEditing plugin together with
the one table it is acting on. -/
structure ControllerState where
  isResizingActive : Bool
  isResizingAllowed : Bool
  resizingData : Option ResizingData
  view : ViewTableState
  model : ModelTableState
deriving DecidableEq

/-- A document-mutation command executed by the controller on release. -/
inductive ResizeCommand where
  | resizeTableWidth (tableWidth : ℚ) (columnWidths : List ℚ)
  | resizeColumnWidths (columnWidths : List ℚ)
deriving DecidableEq

/-- The DOM-derived inputs of one mousedown event: the event target, the
pointer position, and the geometry the handler measures from the rendered
table (_calculateDomColumnWidths and the queries in _getResizingData). -/
structure PressInput where
  targetIsResizer : Bool
  clientX : ℚ
  columnWidthsInPx : List ℚ
  leftColumnIndex : Nat
  numberOfColumns : Nat
  hasTableAlignmentAttribute : Bool
  isRtlContentLanguage : Bool
  viewFigureParentWidth : ℚ
  viewFigureWidth : ℚ
  tableWidthInPx : ℚ
deriving DecidableEq

/-- _getResizingData: packages the press-time data.  isRightEdge holds when
the grabbed boundary is the right edge of the last column; isTableCentered
when the table has no tableAlignment attribute; isLtrContent when the
content language is not right-to-left. -/
def getResizingData (input : PressInput) : ResizingData :=
  { columnPosition := input.clientX
    leftColumnIndex := input.leftColumnIndex
    flags :=
      { isRightEdge := input.leftColumnIndex = input.numberOfColumns - 1
        isTableCentered := !input.hasTableAlignmentAttribute
        isLtrContent := !input.isRtlContentLanguage }
    widths :=
      { viewFigureParentWidth := input.viewFigureParentWidth
        viewFigureWidth := input.viewFigureWidth
        tableWidth := input.tableWidthInPx
        leftColumnWidth := input.columnWidthsInPx.getD input.leftColumnIndex 0
        rightColumnWidth :=
          if input.leftColumnIndex = input.numberOfColumns - 1 then 0
          else input.columnWidthsInPx.getD (input.leftColumnIndex + 1) 0 } }

/-- _insertColgroupElement: the style of each created col element, the
pixel width as a share of the summed pixel widths. -/
def insertColgroupStyles (columnWidthsInPx : List ℚ) : List ℚ :=
  columnWidthsInPx.map (fun w => toPrecision (w / sumArray columnWidthsInPx * 100))

/-- _onMouseDownHandler: a press on anything but a resizer handle clears
the allowed flag and stops; a press on a handle while resizing is not
allowed stops; otherwise a colgroup is synthesized if missing, the session
data is stored, and the view receives the resizing classes and a figure
width style fixed to the measured percentage.  Note: the handler does not
consult the isResizingActive flag. -/
def onMouseDownHandler (s : ControllerState) (input : PressInput) : ControllerState :=
  if !input.targetIsResizer then { s with isResizingAllowed := false }
  else if !s.isResizingAllowed then s
  else
    let view0 := match s.view.colgroup with
      | none => { s.view with colgroup := some (insertColgroupStyles input.columnWidthsInPx) }
      | some _ => s.view
    let data := getResizingData input
    let figureInitialPcWidth := data.widths.viewFigureWidth / data.widths.viewFigureParentWidth
    { s with
        isResizingActive := true
        resizingData := some data
        view := { view0 with
          tableResizedClass := true
          resizerActiveClass := true
          figureWidthStyle := some (toPrecision (figureInitialPcWidth * 100)) } }

/-- The dxLowerBound of _onMouseMoveHandler. -/
def dxLowerBound (d : ResizingData) : ℚ :=
  -d.widths.leftColumnWidth + COLUMN_MIN_WIDTH_IN_PIXELS

/-- The dxUpperBound of _onMouseMoveHandler. -/
def dxUpperBound (d : ResizingData) : ℚ :=
  if d.flags.isRightEdge then d.widths.viewFigureParentWidth - d.widths.tableWidth
  else d.widths.rightColumnWidth - COLUMN_MIN_WIDTH_IN_PIXELS

/-- The movement multiplier of _onMouseMoveHandler: it negates the sign if
the content language direction is right-to-left, and doubles the offset if
the table edge is resized and the table is centered. -/
def moveMultiplier (d : ResizingData) : ℚ :=
  (if d.flags.isLtrContent then 1 else -1) *
    (if d.flags.isRightEdge && d.flags.isTableCentered then 2 else 1)

/-- The clamped horizontal delta applied by _onMouseMoveHandler for a
pointer at clientX. -/
def computeDx (d : ResizingData) (clientX : ℚ) : ℚ :=
  clamp ((clientX - d.columnPosition) * moveMultiplier d)
    (min (dxLowerBound d) 0) (max (dxUpperBound d) 0)

/-- Closing of a resizing session, shared by every exit path of
_onMouseUpHandler: the active class is removed from the resizer and the
session storage is purged. -/
def closeSession (s : ControllerState) : ControllerState :=
  { s with
      isResizingActive := false
      resizingData := none
      view := { s.view with resizerActiveClass := false } }

/-- _onMouseUpHandler: with no active session it only re-enables resizing;
otherwise it compares the width styles of the view with the stored model
attributes, and either commits them through a command (when still allowed)
or reverts the view (when resizing became disallowed mid-session), and
always closes the session. -/
def onMouseUpHandler (s : ControllerState) : ControllerState × List ResizeCommand :=
  if !s.isResizingActive then ({ s with isResizingAllowed := true }, [])
  else match s.resizingData with
    | none => (s, [])
    | some _ =>
      let columnWidthsAttributeOld := s.model.columnWidths
      let columnWidthsAttributeNew := s.view.colgroup.getD []
      let isColumnWidthsAttributeChanged :=
        columnWidthsAttributeOld ≠ some columnWidthsAttributeNew
      let tableWidthAttributeOld := s.model.tableWidth
      let tableWidthAttributeNew := s.view.figureWidthStyle
      let isTableWidthAttributeChanged := tableWidthAttributeOld ≠ tableWidthAttributeNew
      if isColumnWidthsAttributeChanged ∨ isTableWidthAttributeChanged then
        if s.isResizingAllowed then
          if isTableWidthAttributeChanged then
            let tw := toPrecision (tableWidthAttributeNew.getD 0)
            (closeSession { s with model :=
                { columnWidths := some columnWidthsAttributeNew, tableWidth := some tw } },
             [ResizeCommand.resizeTableWidth tw columnWidthsAttributeNew])
          else
            (closeSession { s with model :=
                { s.model with columnWidths := some columnWidthsAttributeNew } },
             [ResizeCommand.resizeColumnWidths columnWidthsAttributeNew])
        else
          let view1 := match columnWidthsAttributeOld with
            | some columnWidths =>
                { s.view with
                    colgroup := some (restoreColStyles (s.view.colgroup.getD []) columnWidths) }
            | none => { s.view with colgroup := none }
          let view2 := if isTableWidthAttributeChanged then
              { view1 with figureWidthStyle := tableWidthAttributeOld }
            else view1
          let view3 := if columnWidthsAttributeOld = none ∧ tableWidthAttributeOld = none then
              { view2 with tableResizedClass := false }
            else view2
          (closeSession { s with view := view3 }, [])
      else (closeSession s, [])

/-- _onMouseMoveHandler: does nothing without an active session; with an
active but disallowed session it behaves as a release; otherwise it clamps
the scaled pointer delta, skips a zero delta, and updates in the view only
the width style of the left column, together with either the figure width
style (right-edge drag) or the width style of the right column (internal
boundary drag). -/
def onMouseMoveHandler (s : ControllerState) (clientX : ℚ) :
    ControllerState × List ResizeCommand :=
  if !s.isResizingActive then (s, [])
  else if !s.isResizingAllowed then onMouseUpHandler s
  else match s.resizingData with
    | none => (s, [])
    | some d =>
      let dx := computeDx d clientX
      if dx = 0 then (s, [])
      else
        let leftColumnWidthAsPercentage :=
          toPrecision ((d.widths.leftColumnWidth + dx) * 100 / d.widths.tableWidth)
        let colgroup1 := (s.view.colgroup.getD []).set d.leftColumnIndex
          leftColumnWidthAsPercentage
        if d.flags.isRightEdge then
          let tableWidthAsPercentage :=
            toPrecision ((d.widths.tableWidth + dx) * 100 / d.widths.viewFigureParentWidth)
          ({ s with view := { s.view with
              colgroup := some colgroup1
              figureWidthStyle := some tableWidthAsPercentage } }, [])
        else
          let rightColumnWidthAsPercentage :=
            toPrecision ((d.widths.rightColumnWidth - dx) * 100 / d.widths.tableWidth)
          ({ s with view := { s.view with
              colgroup := some (colgroup1.set (d.leftColumnIndex + 1)
                rightColumnWidthAsPercentage) } }, [])

/-! ## Helper lemmas -/

theorem sumArray_nil : sumArray [] = 0 := rfl

theorem foldl_add_shift (l : List ℚ) :
    ∀ a : ℚ, l.foldl (fun x y => x + y) a = a + l.foldl (fun x y => x + y) 0 := by
  induction l with
  | nil => intro a; simp
  | cons x xs ih =>
      intro a
      simp only [List.foldl_cons]
      rw [ih (a + x), ih (0 + x)]
      ring

theorem sumArray_cons (x : ℚ) (l : List ℚ) : sumArray (x :: l) = x + sumArray l := by
  simp only [sumArray, List.foldl_cons]
  rw [foldl_add_shift]
  ring

theorem sumArray_append (l₁ l₂ : List ℚ) :
    sumArray (l₁ ++ l₂) = sumArray l₁ + sumArray l₂ := by
  induction l₁ with
  | nil => simp [sumArray_nil]
  | cons x xs ih =>
      simp only [List.cons_append, sumArray_cons, ih]
      ring

theorem adjustLast_nil (d : ℚ) : adjustLast [] d = [] := rfl

theorem adjustLast_single (x d : ℚ) : adjustLast [x] d = [x + d] := rfl

theorem adjustLast_cons₂ (x y : ℚ) (xs : List ℚ) (d : ℚ) :
    adjustLast (x :: y :: xs) d = x :: adjustLast (y :: xs) d := rfl

theorem adjustLast_sum (d : ℚ) (l : List ℚ) (h : l ≠ []) :
    sumArray (adjustLast l d) = sumArray l + d := by
  induction l with
  | nil => cases h rfl
  | cons x xs ih =>
      cases xs with
      | nil =>
          simp only [adjustLast_single, sumArray_cons, sumArray_nil]
          ring
      | cons y ys =>
          simp only [adjustLast_cons₂, sumArray_cons]
          rw [ih (by simp), sumArray_cons]
          ring

theorem adjustLast_length (d : ℚ) (l : List ℚ) :
    (adjustLast l d).length = l.length := by
  induction l with
  | nil => rfl
  | cons x xs ih =>
      cases xs with
      | nil => rfl
      | cons y ys => simpa [adjustLast_cons₂] using ih

theorem normalizeColumnWidths_sum (ws : List ℚ) (h : ws ≠ []) :
    sumArray (normalizeColumnWidths ws) = 100 := by
  unfold normalizeColumnWidths
  split
  · assumption
  · rw [adjustLast_sum _ _ (by simpa using h)]
    ring

theorem normalizeColumnWidths_length (ws : List ℚ) :
    (normalizeColumnWidths ws).length = ws.length := by
  unfold normalizeColumnWidths
  split
  · rfl
  · rw [adjustLast_length, List.length_map]

theorem normalizeColumnWidths_eq_self (ws : List ℚ) (h : sumArray ws = 100) :
    normalizeColumnWidths ws = ws := by
  unfold normalizeColumnWidths
  rw [if_pos h]

theorem addAt_length (l : List ℚ) (i : Nat) (x : ℚ) :
    (addAt l i x).length = l.length := by
  induction l generalizing i with
  | nil => rfl
  | cons a as ih =>
      cases i with
      | zero => rfl
      | succ n => simpa [addAt] using ih n

theorem addAt_sum (l : List ℚ) (i : Nat) (x : ℚ) (h : i < l.length) :
    sumArray (addAt l i x) = sumArray l + x := by
  induction l generalizing i with
  | nil => simp at h
  | cons a as ih =>
      cases i with
      | zero =>
          simp only [addAt, sumArray_cons]
          ring
      | succ n =>
          simp only [addAt, sumArray_cons]
          rw [ih n (by simpa using h)]
          ring

theorem addAt_getD (l : List ℚ) (i : Nat) (x : ℚ) (h : i < l.length) :
    (addAt l i x).getD i 0 = l.getD i 0 + x := by
  induction l generalizing i with
  | nil => simp at h
  | cons a as ih =>
      cases i with
      | zero => simp [addAt]
      | succ n =>
          simp only [addAt, List.getD_cons_succ]
          exact ih n (by simpa using h)

theorem getD_append_left (l₁ l₂ : List ℚ) (i : Nat) (h : i < l₁.length) :
    (l₁ ++ l₂).getD i 0 = l₁.getD i 0 := by
  induction l₁ generalizing i with
  | nil => simp at h
  | cons a as ih =>
      cases i with
      | zero => rfl
      | succ n =>
          simp only [List.cons_append, List.getD_cons_succ]
          exact ih n (by simpa using h)

theorem getD_append_right (l₁ l₂ : List ℚ) (i : Nat) :
    (l₁ ++ l₂).getD (l₁.length + i) 0 = l₂.getD i 0 := by
  induction l₁ with
  | nil => simp
  | cons a as ih =>
      rw [List.length_cons]
      have h1 : as.length + 1 + i = (as.length + i) + 1 := by omega
      rw [h1]
      simpa [List.cons_append, List.getD_cons_succ] using ih

theorem getD_take (l : List ℚ) (c i : Nat) (h : i < c) :
    (l.take c).getD i 0 = l.getD i 0 := by
  induction l generalizing c i with
  | nil => simp
  | cons a as ih =>
      cases c with
      | zero => omega
      | succ m =>
          cases i with
          | zero => rfl
          | succ n =>
              simp only [List.take_succ_cons, List.getD_cons_succ]
              exact ih m n (by omega)

theorem getD_drop_zero (l : List ℚ) (n : Nat) : (l.drop n).getD 0 0 = l.getD n 0 := by
  induction l generalizing n with
  | nil => simp
  | cons a as ih =>
      cases n with
      | zero => rfl
      | succ m =>
          simp only [List.drop_succ_cons, List.getD_cons_succ]
          exact ih m

theorem getD_replicate (n i : Nat) (x : ℚ) (h : i < n) :
    (List.replicate n x).getD i 0 = x := by
  induction n generalizing i with
  | zero => omega
  | succ m ih =>
      cases i with
      | zero => rfl
      | succ k =>
          simp only [List.replicate_succ, List.getD_cons_succ]
          exact ih k (by omega)

theorem getD_set_ne (l : List ℚ) (i j : Nat) (x : ℚ) (h : i ≠ j) :
    (l.set i x).getD j 0 = l.getD j 0 := by
  induction l generalizing i j with
  | nil => simp
  | cons a as ih =>
      cases i with
      | zero =>
          cases j with
          | zero => omega
          | succ k => rfl
      | succ n =>
          cases j with
          | zero => rfl
          | succ k =>
              simp only [List.set_cons_succ, List.getD_cons_succ]
              exact ih n k (by omega)

theorem getD_set_self (l : List ℚ) (i : Nat) (x : ℚ) (h : i < l.length) :
    (l.set i x).getD i 0 = x := by
  induction l generalizing i with
  | nil => simp at h
  | cons a as ih =>
      cases i with
      | zero => rfl
      | succ n =>
          simp only [List.set_cons_succ, List.getD_cons_succ]
          exact ih n (by simpa using h)

theorem lookupCell_setCell_self (m : ColumnIndexMap) (c v : Nat) :
    lookupCell (setCell m c v) c = some v := by
  induction m with
  | nil => simp [setCell, lookupCell]
  | cons p rest ih =>
      obtain ⟨k, w⟩ := p
      by_cases hk : k = c
      · simp [setCell, hk, lookupCell]
      · simp only [setCell, if_neg hk, lookupCell]
        simpa [if_neg hk] using ih

theorem lookupCell_setCell_ne (m : ColumnIndexMap) (c v c' : Nat) (h : c' ≠ c) :
    lookupCell (setCell m c v) c' = lookupCell m c' := by
  induction m with
  | nil =>
      simp only [setCell, lookupCell]
      rw [if_neg (Ne.symm h)]
  | cons p rest ih =>
      obtain ⟨k, w⟩ := p
      by_cases hk : k = c
      · subst hk
        simp only [setCell, if_pos rfl, lookupCell]
        rw [if_neg (Ne.symm h), if_neg (Ne.symm h)]
      · simp only [setCell, if_neg hk, lookupCell]
        by_cases hk' : k = c'
        · rw [if_pos hk', if_pos hk']
        · rw [if_neg hk', if_neg hk']
          exact ih

theorem le_clamp (x lo hi : ℚ) (h : lo ≤ hi) : lo ≤ clamp x lo hi := by
  unfold clamp
  split_ifs <;> linarith

theorem clamp_le (x lo hi : ℚ) (h : lo ≤ hi) : clamp x lo hi ≤ hi := by
  unfold clamp
  split_ifs <;> linarith

theorem clamp_eq_self (x lo hi : ℚ) (h1 : lo ≤ x) (h2 : x ≤ hi) : clamp x lo hi = x := by
  unfold clamp
  split_ifs with a b
  · exact (le_antisymm a h1).symm
  · exact le_antisymm b h2
  · rfl

theorem restoreColStyles_eq (styles ws : List ℚ) (h : styles.length = ws.length) :
    restoreColStyles styles ws = ws := by
  induction styles generalizing ws with
  | nil =>
      cases ws with
      | nil => rfl
      | cons w ws' => simp at h
  | cons s rest ih =>
      cases ws with
      | nil => simp at h
      | cons w ws' =>
          simp only [restoreColStyles]
          rw [ih ws' (by simpa using h)]

/-! ### Lemmas about the post-fixer walking phase -/

theorem postFixStep_insMono (m : ℚ) (acc : FixerAcc) (s : CellSlot)
    (h : acc.insertionHandled = true) :
    (postFixStep m acc s).insertionHandled = true := by
  unfold postFixStep
  cases lookupCell acc.map s.cell with
  | none => simpa using h
  | some p =>
      by_cases h1 : p < s.column
      · simp [h1, h]
      · by_cases h2 : s.column < p
        · by_cases h3 : acc.deletionHandled = true <;> simp [h1, h2, h3, h]
        · simp [h1, h2, h]

theorem postFixFold_insMono (m : ℚ) (slots : List CellSlot) (acc : FixerAcc)
    (h : acc.insertionHandled = true) :
    (slots.foldl (postFixStep m) acc).insertionHandled = true := by
  induction slots generalizing acc with
  | nil => simpa using h
  | cons s rest ih =>
      rw [List.foldl_cons]
      exact ih _ (postFixStep_insMono m acc s h)

theorem insHandled_false_of_fold (m : ℚ) (slots : List CellSlot) (acc : FixerAcc)
    (h : (slots.foldl (postFixStep m) acc).insertionHandled = false) :
    acc.insertionHandled = false := by
  cases hb : acc.insertionHandled with
  | false => rfl
  | true =>
      rw [postFixFold_insMono m slots acc hb] at h
      cases h

theorem postFixStep_map_other (m : ℚ) (acc : FixerAcc) (s : CellSlot) (c : Nat)
    (h : c ≠ s.cell) :
    lookupCell (postFixStep m acc s).map c = lookupCell acc.map c := by
  unfold postFixStep
  cases lookupCell acc.map s.cell with
  | none => simp [lookupCell_setCell_ne _ _ _ _ h]
  | some p =>
      by_cases h1 : p < s.column
      · by_cases h3 : acc.insertionHandled = true <;>
          simp [h1, h3, lookupCell_setCell_ne _ _ _ _ h]
      · by_cases h2 : s.column < p
        · by_cases h4 : acc.deletionHandled = true <;>
            simp [h1, h2, h4, lookupCell_setCell_ne _ _ _ _ h]
        · simp [h1, h2]

theorem postFixStep_map_self (m : ℚ) (acc : FixerAcc) (s : CellSlot) :
    lookupCell (postFixStep m acc s).map s.cell = some s.column := by
  unfold postFixStep
  cases hl : lookupCell acc.map s.cell with
  | none => simp [lookupCell_setCell_self]
  | some p =>
      by_cases h1 : p < s.column
      · by_cases h3 : acc.insertionHandled = true <;>
          simp [h1, h3, lookupCell_setCell_self]
      · by_cases h2 : s.column < p
        · by_cases h4 : acc.deletionHandled = true <;>
            simp [h1, h2, h4, lookupCell_setCell_self]
        · have hpe : p = s.column := by omega
          simp [h1, h2, hl, hpe]

theorem postFixStep_stable (m : ℚ) (acc : FixerAcc) (s : CellSlot)
    (h : lookupCell acc.map s.cell = some s.column) :
    postFixStep m acc s = acc := by
  unfold postFixStep
  rw [h]
  simp

theorem postFixFold_stable (m : ℚ) (slots : List CellSlot) (acc : FixerAcc)
    (h : ∀ s ∈ slots, lookupCell acc.map s.cell = some s.column) :
    slots.foldl (postFixStep m) acc = acc := by
  induction slots with
  | nil => rfl
  | cons s rest ih =>
      rw [List.foldl_cons, postFixStep_stable m acc s (h s (by simp))]
      exact ih fun s' hs' => h s' (by simp [hs'])

theorem postFixFold_map_other (m : ℚ) (slots : List CellSlot) (acc : FixerAcc)
    (c : Nat) (h : c ∉ slots.map CellSlot.cell) :
    lookupCell (slots.foldl (postFixStep m) acc).map c = lookupCell acc.map c := by
  induction slots generalizing acc with
  | nil => rfl
  | cons s rest ih =>
      simp only [List.map_cons, List.mem_cons, not_or] at h
      rw [List.foldl_cons, ih _ h.2]
      exact postFixStep_map_other m acc s c h.1

theorem postFixFold_map_final (m : ℚ) (slots : List CellSlot) (acc : FixerAcc)
    (hnd : (slots.map CellSlot.cell).Nodup) :
    ∀ s ∈ slots, lookupCell (slots.foldl (postFixStep m) acc).map s.cell = some s.column := by
  induction slots generalizing acc with
  | nil => intro s hs; cases hs
  | cons s0 rest ih =>
      rw [List.map_cons] at hnd
      have hnotin := (List.nodup_cons.mp hnd).1
      have hnd2 := (List.nodup_cons.mp hnd).2
      intro s hs
      rcases List.mem_cons.mp hs with rfl | hmem
      · rw [List.foldl_cons, postFixFold_map_other m rest _ s.cell hnotin]
        exact postFixStep_map_self m acc s
      · rw [List.foldl_cons]
        exact ih _ hnd2 s hmem

/-- Sum preservation of the deletion handling of step (3.1): removing the
detected entries and donating their sum to the neighbour keeps the total,
provided the donation index is in range. -/
theorem deletionStep_sum (w0 : List ℚ) (c p : Nat) (hcp : c < p) (hp : p ≤ w0.length)
    (h0 : c = 0 → p < w0.length) :
    sumArray (addAt (w0.take c ++ w0.drop p) (if 0 < c then c - 1 else c)
      (sumArray ((w0.drop c).take (p - c)))) = sumArray w0 := by
  have hlen : (w0.take c ++ w0.drop p).length = c + (w0.length - p) := by
    rw [List.length_append, List.length_take, List.length_drop]
    omega
  have hidx : (if 0 < c then c - 1 else c) < (w0.take c ++ w0.drop p).length := by
    rw [hlen]
    by_cases hc : 0 < c
    · rw [if_pos hc]; omega
    · rw [if_neg hc]
      have := h0 (by omega)
      omega
  rw [addAt_sum _ _ _ hidx, sumArray_append]
  have hdp : (w0.drop c).drop (p - c) = w0.drop p := by
    rw [List.drop_drop]
    congr 1
    omega
  have hw : sumArray w0
      = sumArray (w0.take c) + (sumArray ((w0.drop c).take (p - c)) + sumArray (w0.drop p)) := by
    conv_lhs => rw [← List.take_append_drop c w0]
    conv_lhs => rw [← List.take_append_drop (p - c) (w0.drop c)]
    rw [sumArray_append, sumArray_append, hdp]
  rw [hw]
  ring

/-- The central invariant of the walking phase: in a pass where no column
insertion ends up handled, the width sequence keeps its 100 sum (and stays
pristine until the first deletion), provided the walked cells are distinct
and the detected deletions are in range of the pristine sequence. -/
theorem postFixFold_sum (m : ℚ) (w0 : List ℚ) :
    ∀ (slots : List CellSlot) (acc : FixerAcc),
      (slots.map CellSlot.cell).Nodup →
      (∀ s ∈ slots, ∀ p, lookupCell acc.map s.cell = some p → s.column < p →
        p ≤ w0.length ∧ (s.column = 0 → p < w0.length)) →
      (slots.foldl (postFixStep m) acc).insertionHandled = false →
      sumArray acc.widths = 100 →
      (acc.deletionHandled = false → acc.widths = w0) →
      sumArray (slots.foldl (postFixStep m) acc).widths = 100 := by
  intro slots
  induction slots with
  | nil => intro acc _ _ _ hsum _; simpa using hsum
  | cons s0 rest ih =>
      intro acc hnd hbnd hins hsum hpristine
      rw [List.map_cons] at hnd
      have hnotin := (List.nodup_cons.mp hnd).1
      have hnd2 := (List.nodup_cons.mp hnd).2
      rw [List.foldl_cons] at hins ⊢
      have hins' : (postFixStep m acc s0).insertionHandled = false :=
        insHandled_false_of_fold m rest _ hins
      have hacc : acc.insertionHandled = false := by
        cases hb : acc.insertionHandled with
        | false => rfl
        | true =>
            rw [postFixStep_insMono m acc s0 hb] at hins'
            cases hins'
      have hbnd' : ∀ s ∈ rest, ∀ p,
          lookupCell (postFixStep m acc s0).map s.cell = some p → s.column < p →
          p ≤ w0.length ∧ (s.column = 0 → p < w0.length) := by
        intro s hs p hlp hcp
        have hne : s.cell ≠ s0.cell := by
          intro he
          exact hnotin (he ▸ List.mem_map_of_mem CellSlot.cell hs)
        rw [postFixStep_map_other m acc s0 s.cell hne] at hlp
        exact hbnd s (by simp [hs]) p hlp hcp
      -- establish the invariant for the state after the first step
      cases hl : lookupCell acc.map s0.cell with
      | none =>
          refine ih _ hnd2 (by simpa [postFixStep, hl] using hbnd') ?_ ?_ ?_
          · simpa [postFixStep, hl] using hins
          · simpa [postFixStep, hl] using hsum
          · intro hdel
            have := hpristine (by simpa [postFixStep, hl] using hdel)
            simpa [postFixStep, hl] using this
      | some p =>
          by_cases h1 : p < s0.column
          · exfalso
            have : (postFixStep m acc s0).insertionHandled = true := by
              simp [postFixStep, hl, h1, hacc]
            rw [this] at hins'
            cases hins'
          · by_cases h2 : s0.column < p
            · by_cases h4 : acc.deletionHandled = true
              · refine ih _ hnd2 hbnd' ?_ ?_ ?_
                · exact hins
                · simpa [postFixStep, hl, h1, h2, h4] using hsum
                · intro hdel
                  exfalso
                  have : (postFixStep m acc s0).deletionHandled = true := by
                    simp [postFixStep, hl, h1, h2, h4]
                  rw [this] at hdel
                  cases hdel
              · have hw0 : acc.widths = w0 := hpristine (by simpa using h4)
                have hb0 := hbnd s0 (by simp) p hl h2
                refine ih _ hnd2 hbnd' ?_ ?_ ?_
                · exact hins
                · have : (postFixStep m acc s0).widths
                      = addAt (w0.take s0.column ++ w0.drop p)
                        (if 0 < s0.column then s0.column - 1 else s0.column)
                        (sumArray ((w0.drop s0.column).take (p - s0.column))) := by
                    simp [postFixStep, hl, h1, h2, h4, hw0]
                  rw [this,
                    deletionStep_sum w0 s0.column p h2 hb0.1 hb0.2, ← hw0]
                  exact hsum
                · intro hdel
                  exfalso
                  have : (postFixStep m acc s0).deletionHandled = true := by
                    simp [postFixStep, hl, h1, h2, h4]
                  rw [this] at hdel
                  cases hdel
            · have hpe : p = s0.column := by omega
              have hstep : postFixStep m acc s0 = acc :=
                postFixStep_stable m acc s0 (by rw [hl, hpe])
              rw [hstep] at hins hbnd' ⊢
              exact ih acc hnd2 hbnd' hins hsum hpristine

/-! ### Lemmas about the tail reconciliation -/

theorem tailWidths_length (m : ℚ) (n : Nat) (w : List ℚ) :
    (tailWidths m n w).length = n := by
  unfold tailWidths
  by_cases h1 : w.length < n
  · have h2 : ¬ n < w.length := by omega
    simp only [if_pos h1, if_neg h2, List.length_append, createFilledArray,
      List.length_replicate]
    omega
  · by_cases h2 : n < w.length
    · simp only [if_neg h1, if_pos h2, addAt_length, List.length_take]
      omega
    · simp only [if_neg h1, if_neg h2]
      omega

theorem tailWidths_eq_self (m : ℚ) (n : Nat) (w : List ℚ) (h : w.length = n) :
    tailWidths m n w = w := by
  have h1 : ¬ w.length < n := by omega
  have h2 : ¬ n < w.length := by omega
  simp only [tailWidths, if_neg h1, if_neg h2]

theorem tailWidths_insert (m : ℚ) (n : Nat) (w : List ℚ) (h : w.length ≤ n) :
    tailWidths m n w = w ++ createFilledArray (n - w.length) m := by
  have h2 : ¬ n < w.length := by omega
  simp only [tailWidths, if_neg h2]
  by_cases h1 : w.length < n
  · rw [if_pos h1]
  · have he : n - w.length = 0 := by omega
    rw [if_neg h1, he]
    simp [createFilledArray]

theorem tailWidths_delete (m : ℚ) (n : Nat) (w : List ℚ) (h : n < w.length) :
    tailWidths m n w
      = addAt (w.take n) (n - 1) (sumArray (w.drop n)) := by
  have h1 : ¬ w.length < n := by omega
  simp only [tailWidths, if_neg h1, if_pos h]

theorem tailWidths_sum (m : ℚ) (n : Nat) (w : List ℚ) (hsum : sumArray w = 100)
    (hni : ¬ w.length < n) (hn : 1 ≤ n) : sumArray (tailWidths m n w) = 100 := by
  by_cases h2 : n < w.length
  · rw [tailWidths_delete m n w h2]
    rw [addAt_sum _ _ _ (by rw [List.length_take]; omega)]
    have hdecomp : sumArray (w.take n) + sumArray (w.drop n) = sumArray w := by
      rw [← sumArray_append, List.take_append_drop]
    linarith
  · rw [tailWidths_eq_self m n w (by omega)]
    exact hsum

/-! ### Inversion of the per-table pass and the shared 100-sum argument -/

theorem postFixTable_some_inv (m : ℚ) (n : Nat) (slots : List CellSlot)
    (map0 : ColumnIndexMap) (ws : List ℚ) (r : FixerResult)
    (h : postFixTable m n slots map0 (some ws) = some r) :
    r = { attrOut := tailWidths m n (postFixFold m slots map0 ws).widths,
          map := (postFixFold m slots map0 ws).map,
          insertionHandled := (postFixFold m slots map0 ws).insertionHandled,
          deletionHandled := (postFixFold m slots map0 ws).deletionHandled,
          insertionAtEnd := decide ((postFixFold m slots map0 ws).widths.length < n),
          deletionAtEnd := decide (n < (postFixFold m slots map0 ws).widths.length),
          wrote := if ws = tailWidths m n (postFixFold m slots map0 ws).widths
            then false else true,
          changed := (postFixFold m slots map0 ws).changed
            || (if ws = tailWidths m n (postFixFold m slots map0 ws).widths
              then false else true) } :=
  (Option.some.inj h).symm

/-- Shared argument for C1 and C8: a pass in which no insertion was
handled (neither in the middle nor at the tail) leaves the attribute
summing to 100, provided the walked cells are distinct, every detected
deletion is in range, and the table has at least one column. -/
theorem postFixTable_sum100 (m : ℚ) (n : Nat) (slots : List CellSlot)
    (map0 : ColumnIndexMap) (ws : List ℚ) (r : FixerResult)
    (hr : postFixTable m n slots map0 (some ws) = some r)
    (hne : ws ≠ [])
    (hnodup : (slots.map CellSlot.cell).Nodup)
    (hdel : ∀ s ∈ slots, ∀ p, lookupCell map0 s.cell = some p → s.column < p →
        p ≤ ws.length ∧ (s.column = 0 → p < ws.length))
    (hins : r.insertionHandled = false)
    (hinsEnd : r.insertionAtEnd = false)
    (hn : 1 ≤ n) :
    sumArray r.attrOut = 100 := by
  have hrr := postFixTable_some_inv m n slots map0 ws r hr
  subst hrr
  simp only at hins hinsEnd ⊢
  have hfsum : sumArray (postFixFold m slots map0 ws).widths = 100 := by
    unfold postFixFold at hins ⊢
    refine postFixFold_sum m (normalizeColumnWidths ws) slots _ hnodup ?_ hins
      (normalizeColumnWidths_sum ws hne) (fun _ => rfl)
    intro s hs p hlp hcp
    have := hdel s hs p hlp hcp
    rw [normalizeColumnWidths_length]
    exact this
  have hni : ¬ (postFixFold m slots map0 ws).widths.length < n :=
    of_decide_eq_false hinsEnd
  exact tailWidths_sum m n _ hfsum hni hn

/-- Claim C1 is refuted on the code: a pass that handles a column
insertion splices the minimum-width entries into the sequence without
renormalizing, so the written attribute sums to more than 100.  Concrete
run: stored widths 50,50 summing to 100, the tracked cell 0 moved from
column 0 to column 1 (one inserted column), minimum width 10, structural
column count 3; the pass handles the insertion and writes widths
10,50,50 whose sum is 110. -/
theorem c1_counterexample :
    (postFixTable 10 3 [⟨0, 1⟩] [(0, 0)] (some [50, 50])).map
        (fun r => (r.insertionHandled, r.wrote, sumArray r.attrOut))
      = some (true, true, 110) ∧ (110 : ℚ) ≠ 100 := by
  constructor
  · norm_num [postFixTable, postFixFold, tailWidths, postFixStep, lookupCell, setCell,
      normalizeColumnWidths, sumArray, createFilledArray, addAt]
  · norm_num

/-- Claim C1 (amended): after a Post-Fixer pass over a table carrying a
columnWidths attribute, the parsed percentage values sum to 100 provided
the pass handled no column insertion (neither mid-table nor at the tail);
this includes every pass that detected and handled a column deletion (with
the donation index in range).  A pass that handles an insertion instead
leaves the sum above 100 and reports a change, so the re-entrant pass it
triggers restores the invariant. -/
theorem c1_amended (minPct : ℚ) (numberOfColumns : Nat) (slots : List CellSlot)
    (map0 : ColumnIndexMap) (ws : List ℚ) (r : FixerResult)
    (hr : postFixTable minPct numberOfColumns slots map0 (some ws) = some r)
    (hne : ws ≠ [])
    (hnodup : (slots.map CellSlot.cell).Nodup)
    (hdel : ∀ s ∈ slots, ∀ p, lookupCell map0 s.cell = some p → s.column < p →
        p ≤ ws.length ∧ (s.column = 0 → p < ws.length))
    (hins : r.insertionHandled = false)
    (hinsEnd : r.insertionAtEnd = false)
    (hn : 1 ≤ numberOfColumns) :
    sumArray r.attrOut = 100 :=
  postFixTable_sum100 minPct numberOfColumns slots map0 ws r hr hne hnodup hdel
    hins hinsEnd hn

/-- Witness for c1_amended at a concrete input: a pass over a table with
widths 40,60 and no structural change keeps the 100 sum. -/
theorem c1_amended_witness :
    sumArray (FixerResult.mk [40, 60] [] false false false false false false).attrOut
      = 100 := by
  refine c1_amended 10 2 [] [] [40, 60]
    (FixerResult.mk [40, 60] [] false false false false false false) ?_ ?_ ?_ ?_ rfl rfl ?_
  · norm_num [postFixTable, postFixFold, tailWidths, sumArray, normalizeColumnWidths]
  · simp
  · simp
  · intro s hs
    simp at hs
  · omega

/-- getD of the middle block of a three-part append. -/
theorem getD_append_at (l₁ l₂ l₃ : List ℚ) (p i : Nat) (hp : l₁.length = p)
    (hi : i < l₂.length) :
    (l₁ ++ (l₂ ++ l₃)).getD (p + i) 0 = l₂.getD i 0 := by
  subst hp
  rw [getD_append_right]
  exact getD_append_left _ _ _ hi

/-- Claim C2: when the Post-Fixer detects that N columns were inserted —
either a tracked cell whose current column index exceeds its stored index
by N, or a structural column count exceeding the sequence length K by N at
the tail — the resulting sequence has length K+N, the N new entries all
equal the computed minimum column-width percentage, spliced at the stored
position (respectively the tail), and the pre-existing values are kept
unchanged in their relative order around the spliced block. -/
theorem c2_insertion :
    (∀ (minPct : ℚ) (ws : List ℚ) (cellId prev col : Nat) (map0 : ColumnIndexMap)
        (r : FixerResult),
      lookupCell map0 cellId = some prev →
      prev < col →
      prev ≤ ws.length →
      sumArray ws = 100 →
      postFixTable minPct (ws.length + (col - prev)) [⟨cellId, col⟩] map0 (some ws)
        = some r →
      r.attrOut = ws.take prev ++ createFilledArray (col - prev) minPct ++ ws.drop prev ∧
      r.attrOut.length = ws.length + (col - prev) ∧
      (∀ i, i < col - prev → r.attrOut.getD (prev + i) 0 = minPct) ∧
      r.insertionHandled = true) ∧
    (∀ (minPct : ℚ) (ws : List ℚ) (nNew : Nat) (map0 : ColumnIndexMap)
        (r : FixerResult),
      sumArray ws = 100 →
      postFixTable minPct (ws.length + nNew) [] map0 (some ws) = some r →
      r.attrOut = ws ++ createFilledArray nNew minPct ∧
      r.attrOut.length = ws.length + nNew) := by
  constructor
  · intro minPct ws cellId prev col map0 r hl hpc hple hsum heq
    have hfold : postFixFold minPct [⟨cellId, col⟩] map0 ws
        = { widths := ws.take prev ++ createFilledArray (col - prev) minPct
              ++ ws.drop prev,
            map := setCell map0 cellId col,
            insertionHandled := true, deletionHandled := false, changed := true } := by
      unfold postFixFold
      rw [List.foldl_cons, List.foldl_nil]
      simp [postFixStep, hl, hpc, normalizeColumnWidths_eq_self ws hsum]
    have hwlen : (ws.take prev ++ createFilledArray (col - prev) minPct
        ++ ws.drop prev).length = ws.length + (col - prev) := by
      simp [List.length_append, List.length_take, List.length_drop, createFilledArray]
      omega
    have hrr := postFixTable_some_inv _ _ _ _ _ _ heq
    subst hrr
    simp only [hfold]
    rw [tailWidths_eq_self _ _ _ hwlen]
    refine ⟨by simp, by simpa using hwlen, ?_, by simp⟩
    intro i hi
    have hp : (ws.take prev).length = prev := by
      rw [List.length_take]
      omega
    simp only [List.append_assoc]
    rw [getD_append_at _ _ _ prev i hp (by simpa [createFilledArray] using hi)]
    exact getD_replicate _ _ _ hi
  · intro minPct ws nNew map0 r hsum heq
    have hfold : postFixFold minPct [] map0 ws
        = { widths := ws, map := map0,
            insertionHandled := false, deletionHandled := false, changed := false } := by
      unfold postFixFold
      rw [List.foldl_nil, normalizeColumnWidths_eq_self ws hsum]
    have hrr := postFixTable_some_inv _ _ _ _ _ _ heq
    subst hrr
    simp only [hfold]
    rw [tailWidths_insert _ _ _ (by omega)]
    have hd : ws.length + nNew - ws.length = nNew := by omega
    rw [hd]
    refine ⟨by simp, by simp [createFilledArray]⟩

/-- Witness for c2_insertion at concrete inputs: inserting one column at
position 0 of widths 50,50 with minimum width 10 yields 10,50,50, and a
trailing insertion into 50,50 yields 50,50,10. -/
theorem c2_insertion_witness :
    ((FixerResult.mk [10, 50, 50] [(0, 1)] true false false false true true).attrOut
        = [50, 50].take 0 ++ createFilledArray 1 10 ++ [50, 50].drop 0 ∧
      (FixerResult.mk [10, 50, 50] [(0, 1)] true false false false true true).attrOut.length
        = 2 + 1 ∧
      (∀ i, i < 1 →
        (FixerResult.mk [10, 50, 50] [(0, 1)] true false false false true true).attrOut.getD
          (0 + i) 0 = 10) ∧
      (FixerResult.mk [10, 50, 50] [(0, 1)] true false false false true true).insertionHandled
        = true) ∧
    ((FixerResult.mk [50, 50, 10] [] false false true false true true).attrOut
        = [50, 50] ++ createFilledArray 1 10 ∧
      (FixerResult.mk [50, 50, 10] [] false false true false true true).attrOut.length
        = 2 + 1) := by
  constructor
  · refine c2_insertion.1 10 [50, 50] 0 0 1 [(0, 0)]
      (FixerResult.mk [10, 50, 50] [(0, 1)] true false false false true true)
      (by simp [lookupCell]) (by omega) (by simp) (by norm_num [sumArray]) ?_
    norm_num [postFixTable, postFixFold, tailWidths, postFixStep, lookupCell, setCell,
      normalizeColumnWidths, sumArray, createFilledArray]
  · refine c2_insertion.2 10 [50, 50] 1 []
      (FixerResult.mk [50, 50, 10] [] false false true false true true)
      (by norm_num [sumArray]) ?_
    norm_num [postFixTable, postFixFold, tailWidths, postFixStep, lookupCell, setCell,
      normalizeColumnWidths, sumArray, createFilledArray, addAt]

/-- Claim C3: when the Post-Fixer detects deletion of columns (a tracked
cell whose stored index exceeds its current index, or a structural column
count below the sequence length at the tail), the sequence shrinks by
exactly the number of deleted entries, their summed width is donated to
the column immediately left of the deletion point — or to the column to
the right when the deletion occurred at index 0 — and the 100 sum is
preserved. -/
theorem c3_deletion :
    (∀ (minPct : ℚ) (ws : List ℚ) (cellId prev col : Nat) (map0 : ColumnIndexMap)
        (r : FixerResult),
      lookupCell map0 cellId = some prev →
      col < prev →
      prev ≤ ws.length →
      (col = 0 → prev < ws.length) →
      sumArray ws = 100 →
      postFixTable minPct (ws.length - (prev - col)) [⟨cellId, col⟩] map0 (some ws)
        = some r →
      r.attrOut.length = ws.length - (prev - col) ∧
      sumArray r.attrOut = 100 ∧
      (0 < col → r.attrOut.getD (col - 1) 0
          = ws.getD (col - 1) 0 + sumArray ((ws.drop col).take (prev - col))) ∧
      (col = 0 → r.attrOut.getD 0 0 = ws.getD prev 0 + sumArray (ws.take prev)) ∧
      r.deletionHandled = true) ∧
    (∀ (minPct : ℚ) (ws : List ℚ) (n : Nat) (map0 : ColumnIndexMap) (r : FixerResult),
      sumArray ws = 100 → 1 ≤ n → n < ws.length →
      postFixTable minPct n [] map0 (some ws) = some r →
      r.attrOut.length = n ∧
      sumArray r.attrOut = 100 ∧
      r.attrOut.getD (n - 1) 0 = ws.getD (n - 1) 0 + sumArray (ws.drop n)) := by
  constructor
  · intro minPct ws cellId prev col map0 r hl hcp hple h0 hsum heq
    have hnpc : ¬ prev < col := by omega
    have hfold : postFixFold minPct [⟨cellId, col⟩] map0 ws
        = { widths := addAt (ws.take col ++ ws.drop prev)
              (if 0 < col then col - 1 else col)
              (sumArray ((ws.drop col).take (prev - col))),
            map := setCell map0 cellId col,
            insertionHandled := false, deletionHandled := true, changed := true } := by
      unfold postFixFold
      rw [List.foldl_cons, List.foldl_nil]
      simp [postFixStep, hl, hnpc, hcp, normalizeColumnWidths_eq_self ws hsum]
    have hwlen : (addAt (ws.take col ++ ws.drop prev)
        (if 0 < col then col - 1 else col)
        (sumArray ((ws.drop col).take (prev - col)))).length
        = ws.length - (prev - col) := by
      rw [addAt_length, List.length_append, List.length_take, List.length_drop]
      omega
    have hrr := postFixTable_some_inv _ _ _ _ _ _ heq
    subst hrr
    simp only [hfold]
    rw [tailWidths_eq_self _ _ _ hwlen]
    refine ⟨hwlen, ?_, ?_, ?_, by simp⟩
    · rw [deletionStep_sum ws col prev hcp hple h0]
      exact hsum
    · intro hc
      rw [if_pos hc]
      rw [addAt_getD _ _ _ (by
        rw [List.length_append, List.length_take, List.length_drop]
        omega)]
      rw [getD_append_left _ _ _ (by rw [List.length_take]; omega)]
      rw [getD_take _ _ _ (by omega)]
    · intro hc
      subst hc
      have hpl := h0 rfl
      simp only [List.take_zero, List.nil_append, Nat.sub_zero, List.drop_zero]
      rw [if_neg (Nat.lt_irrefl 0)]
      rw [addAt_getD _ _ _ (by rw [List.length_drop]; omega)]
      rw [getD_drop_zero]
  · intro minPct ws n map0 r hsum hn hnl heq
    have hfold : postFixFold minPct [] map0 ws
        = { widths := ws, map := map0,
            insertionHandled := false, deletionHandled := false, changed := false } := by
      unfold postFixFold
      rw [List.foldl_nil, normalizeColumnWidths_eq_self ws hsum]
    have hrr := postFixTable_some_inv _ _ _ _ _ _ heq
    subst hrr
    simp only [hfold]
    rw [tailWidths_delete _ _ _ hnl]
    refine ⟨?_, ?_, ?_⟩
    · rw [addAt_length, List.length_take]
      omega
    · rw [addAt_sum _ _ _ (by rw [List.length_take]; omega)]
      have hdecomp : sumArray (ws.take n) + sumArray (ws.drop n) = sumArray ws := by
        rw [← sumArray_append, List.take_append_drop]
      linarith
    · rw [addAt_getD _ _ _ (by rw [List.length_take]; omega)]
      rw [getD_take _ _ _ (by omega)]

/-- Witness for c3_deletion at concrete inputs: deleting the column of
width 30 at index 1 of widths 30,30,40 (tracked cell moved from column 2
to column 1) donates 30 to the left neighbour giving 60,40; a trailing
deletion of 20,30,50 down to 2 columns donates 50 to the new last column
giving 20,80. -/
theorem c3_deletion_witness :
    ((FixerResult.mk [60, 40] [(0, 1)] false true false false true true).attrOut.length
        = 3 - (2 - 1) ∧
      sumArray (FixerResult.mk [60, 40] [(0, 1)] false true false false true true).attrOut
        = 100 ∧
      (0 < 1 →
        (FixerResult.mk [60, 40] [(0, 1)] false true false false true true).attrOut.getD
            (1 - 1) 0
          = ([30, 30, 40] : List ℚ).getD (1 - 1) 0
            + sumArray ((([30, 30, 40] : List ℚ).drop 1).take (2 - 1))) ∧
      ((1 : Nat) = 0 →
        (FixerResult.mk [60, 40] [(0, 1)] false true false false true true).attrOut.getD 0 0
          = ([30, 30, 40] : List ℚ).getD 2 0 + sumArray (([30, 30, 40] : List ℚ).take 2)) ∧
      (FixerResult.mk [60, 40] [(0, 1)] false true false false true true).deletionHandled
        = true) ∧
    ((FixerResult.mk [20, 80] [] false false false true true true).attrOut.length = 2 ∧
      sumArray (FixerResult.mk [20, 80] [] false false false true true true).attrOut = 100 ∧
      (FixerResult.mk [20, 80] [] false false false true true true).attrOut.getD (2 - 1) 0
        = ([20, 30, 50] : List ℚ).getD (2 - 1) 0
          + sumArray (([20, 30, 50] : List ℚ).drop 2)) := by
  constructor
  · refine c3_deletion.1 10 [30, 30, 40] 0 2 1 [(0, 2)]
      (FixerResult.mk [60, 40] [(0, 1)] false true false false true true)
      (by simp [lookupCell]) (by omega) (by simp) (by omega) (by norm_num [sumArray]) ?_
    norm_num [postFixTable, postFixFold, tailWidths, postFixStep, lookupCell, setCell,
      normalizeColumnWidths, sumArray, createFilledArray, addAt]
  · refine c3_deletion.2 10 [20, 30, 50] 2 []
      (FixerResult.mk [20, 80] [] false false false true true true)
      (by norm_num [sumArray]) (by omega) (by simp) ?_
    norm_num [postFixTable, postFixFold, tailWidths, postFixStep, lookupCell, setCell,
      normalizeColumnWidths, sumArray, createFilledArray, addAt]

/-- Claim C10: the per-table body of the post-fixer is undefined for a
changed table without a columnWidths attribute (the source reads and
splits the absent attribute with no guard), and defined whenever the
attribute is present: totality of the pass requires every table yielded
by the change set to carry the attribute. -/
theorem c10_missing_attribute :
    (∀ (minPct : ℚ) (numberOfColumns : Nat) (slots : List CellSlot)
        (map0 : ColumnIndexMap),
      postFixTable minPct numberOfColumns slots map0 none = none) ∧
    (∀ (minPct : ℚ) (numberOfColumns : Nat) (slots : List CellSlot)
        (map0 : ColumnIndexMap) (ws : List ℚ),
      (postFixTable minPct numberOfColumns slots map0 (some ws)).isSome = true) :=
  ⟨fun _ _ _ _ => rfl, fun _ _ _ _ _ => rfl⟩

/-- Claim C8 is refuted on the code: after a first pass that handled a
column insertion, the stored attribute sums to 110, so the second pass —
with no intervening structural change (the tracked cell keeps column 1
and the structural column count stays 3) — renormalizes and writes
again. -/
theorem c8_counterexample :
    (postFixTable 10 3 [⟨0, 1⟩] [(0, 0)] (some [50, 50])).map FixerResult.wrote
        = some true ∧
    ((postFixTable 10 3 [⟨0, 1⟩] [(0, 0)] (some [50, 50])).bind
        (fun r1 => postFixTable 10 3 [⟨0, 1⟩] r1.map (some r1.attrOut))).map
        FixerResult.wrote = some true := by
  constructor <;>
    norm_num [postFixTable, postFixFold, tailWidths, postFixStep, lookupCell, setCell,
      normalizeColumnWidths, sumArray, createFilledArray, addAt, toPrecision,
      adjustLast, Option.bind]

/-- A pass whose input already sums to 100 and whose cells are all
tracked at their current columns leaves the walking phase inert. -/
theorem postFixFold_eq_init (m : ℚ) (slots : List CellSlot) (map1 : ColumnIndexMap)
    (ws : List ℚ) (hA : sumArray ws = 100)
    (hstable : ∀ s ∈ slots, lookupCell map1 s.cell = some s.column) :
    postFixFold m slots map1 ws
      = { widths := ws, map := map1,
          insertionHandled := false, deletionHandled := false, changed := false } := by
  unfold postFixFold
  rw [normalizeColumnWidths_eq_self ws hA]
  exact postFixFold_stable m slots _ hstable

/-- Claim C8 (amended): running the Post-Fixer a second time in
succession, with no intervening structural change, produces no additional
attribute write provided the first pass handled no column insertion
(neither mid-table nor at the tail; deletions are fine).  After an
insertion pass the attribute sums to more than 100, so the second pass
renormalizes it and does write once more. -/
theorem c8_amended (minPct : ℚ) (numberOfColumns : Nat) (slots : List CellSlot)
    (map0 : ColumnIndexMap) (ws : List ℚ) (r1 r2 : FixerResult)
    (h1 : postFixTable minPct numberOfColumns slots map0 (some ws) = some r1)
    (hne : ws ≠ [])
    (hnodup : (slots.map CellSlot.cell).Nodup)
    (hdel : ∀ s ∈ slots, ∀ p, lookupCell map0 s.cell = some p → s.column < p →
        p ≤ ws.length ∧ (s.column = 0 → p < ws.length))
    (hins : r1.insertionHandled = false)
    (hinsEnd : r1.insertionAtEnd = false)
    (hn : 1 ≤ numberOfColumns)
    (h2 : postFixTable minPct numberOfColumns slots r1.map (some r1.attrOut) = some r2) :
    r2.wrote = false ∧ r2.changed = false := by
  have hsum1 : sumArray r1.attrOut = 100 :=
    postFixTable_sum100 minPct numberOfColumns slots map0 ws r1 h1 hne hnodup hdel
      hins hinsEnd hn
  have hrr1 := postFixTable_some_inv _ _ _ _ _ _ h1
  subst hrr1
  simp only at hsum1 h2
  have hstable : ∀ s ∈ slots,
      lookupCell (postFixFold minPct slots map0 ws).map s.cell = some s.column := by
    unfold postFixFold
    exact postFixFold_map_final minPct slots _ hnodup
  have hAlen : (tailWidths minPct numberOfColumns
      (postFixFold minPct slots map0 ws).widths).length = numberOfColumns :=
    tailWidths_length _ _ _
  have hfold2 : postFixFold minPct slots (postFixFold minPct slots map0 ws).map
      (tailWidths minPct numberOfColumns (postFixFold minPct slots map0 ws).widths)
      = { widths := tailWidths minPct numberOfColumns
            (postFixFold minPct slots map0 ws).widths,
          map := (postFixFold minPct slots map0 ws).map,
          insertionHandled := false, deletionHandled := false, changed := false } :=
    postFixFold_eq_init minPct slots _ _ hsum1 hstable
  have hrr2 := postFixTable_some_inv _ _ _ _ _ _ h2
  subst hrr2
  constructor
  · simp only [hfold2]
    rw [tailWidths_eq_self _ _ _ hAlen]
    simp
  · simp only [hfold2]
    rw [tailWidths_eq_self _ _ _ hAlen]
    simp

/-- Witness for c8_amended at a concrete input: after a pass with no
structural change over widths 40,60, the second pass writes nothing and
reports no change. -/
theorem c8_amended_witness :
    (FixerResult.mk [40, 60] [] false false false false false false).wrote = false ∧
    (FixerResult.mk [40, 60] [] false false false false false false).changed = false := by
  refine c8_amended 10 2 [] [] [40, 60]
    (FixerResult.mk [40, 60] [] false false false false false false)
    (FixerResult.mk [40, 60] [] false false false false false false)
    ?_ ?_ ?_ ?_ rfl rfl ?_ ?_
  · norm_num [postFixTable, postFixFold, tailWidths, sumArray, normalizeColumnWidths]
  · simp
  · simp
  · intro s hs
    simp at hs
  · omega
  · norm_num [postFixTable, postFixFold, tailWidths, sumArray, normalizeColumnWidths]

/-- Claim C4 is refuted on the code: a press-drag-release cycle with zero
net pointer movement can mutate the model.  Concrete run: a table that was
never resized (no columnWidths, no tableWidth); the press synthesizes a
colgroup with styles 50,50 and fixes the figure width style at 50, a move
at the anchor position changes nothing, and the release finds both view
values different from the absent attributes and executes the
resizeTableWidth command, writing both attributes. -/
theorem c4_counterexample :
    (let s0 : ControllerState :=
      { isResizingActive := false, isResizingAllowed := true, resizingData := none,
        view := { colgroup := none, figureWidthStyle := none,
                  tableResizedClass := false, resizerActiveClass := false },
        model := { columnWidths := none, tableWidth := none } };
    let input : PressInput :=
      { targetIsResizer := true, clientX := 0, columnWidthsInPx := [50, 50],
        leftColumnIndex := 0, numberOfColumns := 2,
        hasTableAlignmentAttribute := false, isRtlContentLanguage := false,
        viewFigureParentWidth := 1000, viewFigureWidth := 500, tableWidthInPx := 500 };
    let cycle :=
      onMouseUpHandler (onMouseMoveHandler (onMouseDownHandler s0 input) 0).1;
    cycle.2 = [ResizeCommand.resizeTableWidth 50 [50, 50]] ∧
      cycle.1.model ≠ s0.model) := by
  constructor
  · norm_num [onMouseDownHandler, onMouseMoveHandler, onMouseUpHandler, getResizingData,
      insertColgroupStyles, closeSession, computeDx, clamp, moveMultiplier, dxLowerBound,
      dxUpperBound, COLUMN_MIN_WIDTH_IN_PIXELS, toPrecision, sumArray]
    simp
  · norm_num [onMouseDownHandler, onMouseMoveHandler, onMouseUpHandler, getResizingData,
      insertColgroupStyles, closeSession, computeDx, clamp, moveMultiplier, dxLowerBound,
      dxUpperBound, COLUMN_MIN_WIDTH_IN_PIXELS, toPrecision, sumArray]
    simp

/-- Claim C4 (amended): a move event at the anchor position changes
nothing (the clamped delta is zero), and a release mutates nothing —
no command is executed and the model attributes are untouched — if and
only if the width styles of the view at release equal the stored model
attributes.  Zero net pointer movement alone does not guarantee the
latter: the press itself synthesizes colgroup styles and rewrites the
figure width style, so a zero-movement cycle on a not-previously-resized
table still executes a resize command. -/
theorem c4_amended :
    (∀ (s : ControllerState) (d : ResizingData) (x : ℚ),
      s.isResizingActive = true → s.isResizingAllowed = true →
      s.resizingData = some d → x = d.columnPosition →
      onMouseMoveHandler s x = (s, [])) ∧
    (∀ (s : ControllerState) (d : ResizingData),
      s.isResizingActive = true →
      s.resizingData = some d →
      s.model.columnWidths = some (s.view.colgroup.getD []) →
      s.model.tableWidth = s.view.figureWidthStyle →
      (onMouseUpHandler s).2 = [] ∧ (onMouseUpHandler s).1.model = s.model) := by
  constructor
  · intro s d x hactive hallowed hdata hx
    have hdx : computeDx d x = 0 := by
      unfold computeDx
      rw [hx]
      rw [sub_self, zero_mul]
      exact clamp_eq_self 0 _ _ (min_le_right _ 0) (le_max_right _ 0)
    simp [onMouseMoveHandler, hactive, hallowed, hdata, hdx]
  · intro s d hactive hdata hcw htw
    have hcw' : ¬ s.model.columnWidths ≠ some (s.view.colgroup.getD []) := by
      simp [hcw]
    have htw' : ¬ s.model.tableWidth ≠ s.view.figureWidthStyle := by
      simp [htw]
    simp [onMouseUpHandler, hactive, hdata, hcw', htw', closeSession]

/-- Witness for c4_amended at a concrete input: with the view styles in
sync with the stored attributes, a release executes no command and leaves
the model unchanged, and a move at the anchor does nothing. -/
theorem c4_amended_witness :
    (let s : ControllerState :=
      { isResizingActive := true, isResizingAllowed := true,
        resizingData := some
          { columnPosition := 7, leftColumnIndex := 0,
            flags := { isRightEdge := false, isTableCentered := true,
                       isLtrContent := true },
            widths := { viewFigureParentWidth := 1000, viewFigureWidth := 500,
                        tableWidth := 500, leftColumnWidth := 50,
                        rightColumnWidth := 50 } },
        view := { colgroup := some [50, 50], figureWidthStyle := some 50,
                  tableResizedClass := true, resizerActiveClass := true },
        model := { columnWidths := some [50, 50], tableWidth := some 50 } };
    onMouseMoveHandler s 7 = (s, []) ∧
      (onMouseUpHandler s).2 = [] ∧ (onMouseUpHandler s).1.model = s.model) := by
  refine ⟨c4_amended.1 _ _ 7 rfl rfl rfl rfl, c4_amended.2 _ _ rfl rfl ?_ ?_⟩
  · simp
  · simp

/-- Claim C5 is refuted on the code: _onMouseDownHandler checks only the
resizer-target class and the allowed flag, never the active-session flag,
so a second press while a session is open passes the gates and replaces
the session data.  Concrete run: with an open session anchored at pointer
position 0, a second press at position 99 overwrites the stored session
with one anchored at 99. -/
theorem c5_counterexample :
    (let d1 : ResizingData :=
      { columnPosition := 0, leftColumnIndex := 0,
        flags := { isRightEdge := false, isTableCentered := true, isLtrContent := true },
        widths := { viewFigureParentWidth := 1000, viewFigureWidth := 500,
                    tableWidth := 500, leftColumnWidth := 50, rightColumnWidth := 50 } };
    let s : ControllerState :=
      { isResizingActive := true, isResizingAllowed := true, resizingData := some d1,
        view := { colgroup := some [50, 50], figureWidthStyle := some 50,
                  tableResizedClass := true, resizerActiveClass := true },
        model := { columnWidths := none, tableWidth := none } };
    let input : PressInput :=
      { targetIsResizer := true, clientX := 99, columnWidthsInPx := [50, 50],
        leftColumnIndex := 0, numberOfColumns := 2,
        hasTableAlignmentAttribute := false, isRtlContentLanguage := false,
        viewFigureParentWidth := 1000, viewFigureWidth := 500, tableWidthInPx := 500 };
    s.isResizingActive = true ∧
      (onMouseDownHandler s input).resizingData.map ResizingData.columnPosition
        = some 99 ∧
      (onMouseDownHandler s input).resizingData ≠ s.resizingData) := by
  refine ⟨rfl, ?_, ?_⟩
  · norm_num [onMouseDownHandler, getResizingData]
  · norm_num [onMouseDownHandler, getResizingData]

/-- Claim C5 (amended): the press path is gated only by the
resizer-target check and the allowed flag, not by the active-session
flag: a press on something that is not a resizer clears the allowed flag,
a press on a resizer while disallowed is a no-op, and a press on a
resizer while allowed always stores a fresh session — replacing the
current one if a session was already active.  At most one session exists
only because a single session slot exists. -/
theorem c5_amended (s : ControllerState) (input : PressInput) :
    (input.targetIsResizer = false →
      onMouseDownHandler s input = { s with isResizingAllowed := false }) ∧
    (input.targetIsResizer = true → s.isResizingAllowed = false →
      onMouseDownHandler s input = s) ∧
    (input.targetIsResizer = true → s.isResizingAllowed = true →
      (onMouseDownHandler s input).resizingData = some (getResizingData input) ∧
      (onMouseDownHandler s input).isResizingActive = true) := by
  refine ⟨?_, ?_, ?_⟩
  · intro h
    simp [onMouseDownHandler, h]
  · intro h1 h2
    simp [onMouseDownHandler, h1, h2]
  · intro h1 h2
    cases hcg : s.view.colgroup <;> simp [onMouseDownHandler, h1, h2, hcg]

/-- Witness for c5_amended at a concrete input: a press on a resizer
while a session is already active stores the fresh session data. -/
theorem c5_amended_witness :
    (let d1 : ResizingData :=
      { columnPosition := 0, leftColumnIndex := 0,
        flags := { isRightEdge := false, isTableCentered := true, isLtrContent := true },
        widths := { viewFigureParentWidth := 1000, viewFigureWidth := 500,
                    tableWidth := 500, leftColumnWidth := 50, rightColumnWidth := 50 } };
    let s : ControllerState :=
      { isResizingActive := true, isResizingAllowed := true, resizingData := some d1,
        view := { colgroup := some [50, 50], figureWidthStyle := some 50,
                  tableResizedClass := true, resizerActiveClass := true },
        model := { columnWidths := none, tableWidth := none } };
    let input : PressInput :=
      { targetIsResizer := true, clientX := 99, columnWidthsInPx := [50, 50],
        leftColumnIndex := 0, numberOfColumns := 2,
        hasTableAlignmentAttribute := false, isRtlContentLanguage := false,
        viewFigureParentWidth := 1000, viewFigureWidth := 500, tableWidthInPx := 500 };
    (onMouseDownHandler s input).resizingData = some (getResizingData input) ∧
      (onMouseDownHandler s input).isResizingActive = true) :=
  (c5_amended _ _).2.2 rfl rfl

/-- Claim C6: when resizing became disallowed between press and release,
the release executes no command and leaves the model attributes
untouched, and the view width styles are put back to the values stored in
the model: the colgroup styles become the stored columnWidths (or the
colgroup is removed when the table had none), the figure width style
becomes the stored tableWidth (or is removed when absent), the
table-resized class is dropped when the table had no resize state at all,
and the session is always closed with the active class cleared. -/
theorem c6_disallowed_restores_view (s : ControllerState) (d : ResizingData)
    (styles : List ℚ)
    (hactive : s.isResizingActive = true)
    (hdata : s.resizingData = some d)
    (hallowed : s.isResizingAllowed = false)
    (hcg : s.view.colgroup = some styles)
    (hlen : ∀ cw, s.model.columnWidths = some cw → cw.length = styles.length) :
    (onMouseUpHandler s).2 = [] ∧
    (onMouseUpHandler s).1.model = s.model ∧
    (onMouseUpHandler s).1.view.colgroup = s.model.columnWidths ∧
    (onMouseUpHandler s).1.view.figureWidthStyle = s.model.tableWidth ∧
    (onMouseUpHandler s).1.view.resizerActiveClass = false ∧
    (onMouseUpHandler s).1.isResizingActive = false ∧
    (onMouseUpHandler s).1.resizingData = none ∧
    (s.model.columnWidths = none → s.model.tableWidth = none →
      (onMouseUpHandler s).1.view.tableResizedClass = false) := by
  by_cases hbranch : s.model.columnWidths ≠ some (s.view.colgroup.getD [])
      ∨ s.model.tableWidth ≠ s.view.figureWidthStyle
  · cases hmcw : s.model.columnWidths with
    | none =>
        cases hmtw : s.model.tableWidth with
        | none =>
            by_cases htwch : s.model.tableWidth = s.view.figureWidthStyle <;>
              refine ⟨?_, ?_, ?_, ?_, ?_, ?_, ?_, ?_⟩ <;>
                · intros
                  simp_all [onMouseUpHandler, closeSession]
        | some tw =>
            by_cases htwch : s.model.tableWidth = s.view.figureWidthStyle <;>
              refine ⟨?_, ?_, ?_, ?_, ?_, ?_, ?_, ?_⟩ <;>
                · intros
                  simp_all [onMouseUpHandler, closeSession]
    | some cw =>
        have hrest : restoreColStyles styles cw = cw :=
          restoreColStyles_eq styles cw (hlen cw hmcw).symm
        cases hmtw : s.model.tableWidth with
        | none =>
            by_cases htwch : s.model.tableWidth = s.view.figureWidthStyle <;>
              refine ⟨?_, ?_, ?_, ?_, ?_, ?_, ?_, ?_⟩ <;>
                · intros
                  simp_all [onMouseUpHandler, closeSession]
        | some tw =>
            by_cases htwch : s.model.tableWidth = s.view.figureWidthStyle <;>
              refine ⟨?_, ?_, ?_, ?_, ?_, ?_, ?_, ?_⟩ <;>
                · intros
                  simp_all [onMouseUpHandler, closeSession]
  · have hcweq : s.model.columnWidths = some (s.view.colgroup.getD []) := by
      by_contra hc
      exact hbranch (Or.inl hc)
    have htweq : s.model.tableWidth = s.view.figureWidthStyle := by
      by_contra hc
      exact hbranch (Or.inr hc)
    refine ⟨?_, ?_, ?_, ?_, ?_, ?_, ?_, ?_⟩ <;>
      · intros
        simp_all [onMouseUpHandler, closeSession]

/-- Witness for c6_disallowed_restores_view at a concrete input: a table
resized to 60,40 at width 50, dragged to 70,30 while resizing became
disallowed, is restored to the stored attributes on release with no
command executed. -/
theorem c6_witness :
    (let s : ControllerState :=
      { isResizingActive := true, isResizingAllowed := false,
        resizingData := some
          { columnPosition := 0, leftColumnIndex := 0,
            flags := { isRightEdge := false, isTableCentered := true,
                       isLtrContent := true },
            widths := { viewFigureParentWidth := 1000, viewFigureWidth := 500,
                        tableWidth := 500, leftColumnWidth := 300,
                        rightColumnWidth := 200 } },
        view := { colgroup := some [70, 30], figureWidthStyle := some 50,
                  tableResizedClass := true, resizerActiveClass := true },
        model := { columnWidths := some [60, 40], tableWidth := some 50 } };
    (onMouseUpHandler s).2 = [] ∧
      (onMouseUpHandler s).1.model = s.model ∧
      (onMouseUpHandler s).1.view.colgroup = s.model.columnWidths ∧
      (onMouseUpHandler s).1.view.figureWidthStyle = s.model.tableWidth ∧
      (onMouseUpHandler s).1.view.resizerActiveClass = false ∧
      (onMouseUpHandler s).1.isResizingActive = false ∧
      (onMouseUpHandler s).1.resizingData = none ∧
      (s.model.columnWidths = none → s.model.tableWidth = none →
        (onMouseUpHandler s).1.view.tableResizedClass = false)) := by
  refine c6_disallowed_restores_view _ _ [70, 30] rfl rfl rfl rfl ?_
  intro cw hcw
  simp only [Option.some.injEq] at hcw
  rw [← hcw]
  simp

/-- Claim C7: in a drag step whose scaled pointer delta lies within the
clamp bounds, the applied delta equals the raw pointer delta times a
multiplier that is the product of a direction factor (−1 exactly for
right-to-left content) and a doubling factor (2 exactly when the dragged
edge is the rightmost edge of a centered table); a right-edge drag
updates only the left column style and the figure width style, while an
internal-boundary drag updates only the left and right column styles and
leaves the figure width — and the whole model — untouched.  The handler
never executes a command. -/
theorem c7_drag_multiplier_and_targets (s : ControllerState) (d : ResizingData)
    (x : ℚ)
    (hactive : s.isResizingActive = true)
    (hallowed : s.isResizingAllowed = true)
    (hdata : s.resizingData = some d)
    (hlo : min (dxLowerBound d) 0 ≤ (x - d.columnPosition) * moveMultiplier d)
    (hhi : (x - d.columnPosition) * moveMultiplier d ≤ max (dxUpperBound d) 0)
    (hne : (x - d.columnPosition) * moveMultiplier d ≠ 0) :
    computeDx d x = (x - d.columnPosition)
      * ((if d.flags.isLtrContent then 1 else -1)
        * (if d.flags.isRightEdge && d.flags.isTableCentered then 2 else 1)) ∧
    (onMouseMoveHandler s x).1.model = s.model ∧
    (onMouseMoveHandler s x).2 = [] ∧
    (d.flags.isRightEdge = true →
      (onMouseMoveHandler s x).1.view.colgroup
          = some ((s.view.colgroup.getD []).set d.leftColumnIndex
            (toPrecision ((d.widths.leftColumnWidth + computeDx d x) * 100
              / d.widths.tableWidth))) ∧
      (onMouseMoveHandler s x).1.view.figureWidthStyle
          = some (toPrecision ((d.widths.tableWidth + computeDx d x) * 100
            / d.widths.viewFigureParentWidth)) ∧
      (∀ j, j ≠ d.leftColumnIndex →
        ((onMouseMoveHandler s x).1.view.colgroup.getD []).getD j 0
          = (s.view.colgroup.getD []).getD j 0)) ∧
    (d.flags.isRightEdge = false →
      (onMouseMoveHandler s x).1.view.colgroup
          = some (((s.view.colgroup.getD []).set d.leftColumnIndex
              (toPrecision ((d.widths.leftColumnWidth + computeDx d x) * 100
                / d.widths.tableWidth))).set (d.leftColumnIndex + 1)
            (toPrecision ((d.widths.rightColumnWidth - computeDx d x) * 100
              / d.widths.tableWidth))) ∧
      (onMouseMoveHandler s x).1.view.figureWidthStyle = s.view.figureWidthStyle ∧
      (∀ j, j ≠ d.leftColumnIndex → j ≠ d.leftColumnIndex + 1 →
        ((onMouseMoveHandler s x).1.view.colgroup.getD []).getD j 0
          = (s.view.colgroup.getD []).getD j 0)) := by
  have hdx : computeDx d x = (x - d.columnPosition) * moveMultiplier d := by
    unfold computeDx
    exact clamp_eq_self _ _ _ hlo hhi
  have hdxne : ¬ computeDx d x = 0 := by
    rw [hdx]
    exact hne
  refine ⟨by rw [hdx]; rfl, ?_, ?_, ?_, ?_⟩
  · cases hre : d.flags.isRightEdge <;>
      simp [onMouseMoveHandler, hactive, hallowed, hdata, hdxne, hre]
  · cases hre : d.flags.isRightEdge <;>
      simp [onMouseMoveHandler, hactive, hallowed, hdata, hdxne, hre]
  · intro hre
    have hcol : (onMouseMoveHandler s x).1.view.colgroup
        = some ((s.view.colgroup.getD []).set d.leftColumnIndex
          (toPrecision ((d.widths.leftColumnWidth + computeDx d x) * 100
            / d.widths.tableWidth))) := by
      simp [onMouseMoveHandler, hactive, hallowed, hdata, hdxne, hre]
    refine ⟨hcol, ?_, ?_⟩
    · simp [onMouseMoveHandler, hactive, hallowed, hdata, hdxne, hre]
    · intro j hj
      rw [hcol, Option.getD_some]
      exact getD_set_ne _ _ _ _ (fun h => hj h.symm)
  · intro hre
    have hcol : (onMouseMoveHandler s x).1.view.colgroup
        = some (((s.view.colgroup.getD []).set d.leftColumnIndex
            (toPrecision ((d.widths.leftColumnWidth + computeDx d x) * 100
              / d.widths.tableWidth))).set (d.leftColumnIndex + 1)
          (toPrecision ((d.widths.rightColumnWidth - computeDx d x) * 100
            / d.widths.tableWidth))) := by
      simp [onMouseMoveHandler, hactive, hallowed, hdata, hdxne, hre]
    refine ⟨hcol, ?_, ?_⟩
    · simp [onMouseMoveHandler, hactive, hallowed, hdata, hdxne, hre]
    · intro j hj1 hj2
      rw [hcol, Option.getD_some]
      rw [getD_set_ne _ _ _ _ (fun h => hj2 h.symm)]
      exact getD_set_ne _ _ _ _ (fun h => hj1 h.symm)

/-- Concrete session data used by the witness of C7: an internal-boundary
drag on a left-to-right centered table, anchored at pointer position 0. -/
def c7WitnessData : ResizingData :=
  { columnPosition := 0, leftColumnIndex := 0,
    flags := { isRightEdge := false, isTableCentered := true, isLtrContent := true },
    widths := { viewFigureParentWidth := 1000, viewFigureWidth := 500,
                tableWidth := 500, leftColumnWidth := 50, rightColumnWidth := 50 } }

/-- Concrete controller state used by the witness of C7. -/
def c7WitnessState : ControllerState :=
  { isResizingActive := true, isResizingAllowed := true,
    resizingData := some c7WitnessData,
    view := { colgroup := some [10, 10], figureWidthStyle := some 50,
              tableResizedClass := true, resizerActiveClass := true },
    model := { columnWidths := some [10, 10], tableWidth := some 50 } }

/-- Witness for c7_drag_multiplier_and_targets at a concrete input: an
internal-boundary drag of 5 pixels on a left-to-right centered table with
columns of 50 pixels in a 500 pixel table updates only the two column
styles and touches neither the figure width nor the model. -/
theorem c7_witness :
    computeDx c7WitnessData 5 = (5 - c7WitnessData.columnPosition)
        * ((if c7WitnessData.flags.isLtrContent then 1 else -1)
          * (if c7WitnessData.flags.isRightEdge && c7WitnessData.flags.isTableCentered
            then 2 else 1)) ∧
      (onMouseMoveHandler c7WitnessState 5).1.model = c7WitnessState.model ∧
      (onMouseMoveHandler c7WitnessState 5).2 = [] ∧
      (c7WitnessData.flags.isRightEdge = false →
        (onMouseMoveHandler c7WitnessState 5).1.view.colgroup
            = some (((c7WitnessState.view.colgroup.getD []).set
                c7WitnessData.leftColumnIndex
                (toPrecision ((c7WitnessData.widths.leftColumnWidth
                  + computeDx c7WitnessData 5) * 100
                  / c7WitnessData.widths.tableWidth))).set
              (c7WitnessData.leftColumnIndex + 1)
              (toPrecision ((c7WitnessData.widths.rightColumnWidth
                - computeDx c7WitnessData 5) * 100
                / c7WitnessData.widths.tableWidth))) ∧
        (onMouseMoveHandler c7WitnessState 5).1.view.figureWidthStyle
          = c7WitnessState.view.figureWidthStyle ∧
        (∀ j, j ≠ c7WitnessData.leftColumnIndex →
          j ≠ c7WitnessData.leftColumnIndex + 1 →
          ((onMouseMoveHandler c7WitnessState 5).1.view.colgroup.getD []).getD j 0
            = (c7WitnessState.view.colgroup.getD []).getD j 0)) := by
  have h := c7_drag_multiplier_and_targets c7WitnessState c7WitnessData 5 rfl rfl rfl
    (by norm_num [c7WitnessData, dxLowerBound, moveMultiplier,
      COLUMN_MIN_WIDTH_IN_PIXELS])
    (by norm_num [c7WitnessData, dxUpperBound, moveMultiplier,
      COLUMN_MIN_WIDTH_IN_PIXELS])
    (by norm_num [c7WitnessData, moveMultiplier])
  exact ⟨h.1, h.2.1, h.2.2.1, h.2.2.2.2⟩

/-- Claim C9 is refuted on the code in its container clause: when the
table is already wider than its container at press time, a right-edge
drag is clamped only from above by zero, so a leftwards drag still leaves
the table wider than the container and the view update is applied.
Concrete run: container 400, table 500, left column 100; a drag of −10
gives the applied delta −10 and a table width of 490, still exceeding the
container; the figure style is updated to 122.5 percent. -/
theorem c9_counterexample :
    (let d : ResizingData :=
      { columnPosition := 0, leftColumnIndex := 0,
        flags := { isRightEdge := true, isTableCentered := false, isLtrContent := true },
        widths := { viewFigureParentWidth := 400, viewFigureWidth := 500,
                    tableWidth := 500, leftColumnWidth := 100, rightColumnWidth := 0 } };
    let s : ControllerState :=
      { isResizingActive := true, isResizingAllowed := true, resizingData := some d,
        view := { colgroup := some [20, 80], figureWidthStyle := some 125,
                  tableResizedClass := true, resizerActiveClass := true },
        model := { columnWidths := some [20, 80], tableWidth := some 125 } };
    d.flags.isRightEdge = true ∧
      computeDx d (-10) = -10 ∧
      d.widths.viewFigureParentWidth < d.widths.tableWidth + computeDx d (-10) ∧
      (onMouseMoveHandler s (-10)).1.view.figureWidthStyle = some (245 / 2)) := by
  refine ⟨rfl, ?_, ?_, ?_⟩
  · norm_num [computeDx, clamp, moveMultiplier, dxLowerBound, dxUpperBound,
      COLUMN_MIN_WIDTH_IN_PIXELS]
  · norm_num [computeDx, clamp, moveMultiplier, dxLowerBound, dxUpperBound,
      COLUMN_MIN_WIDTH_IN_PIXELS]
  · norm_num [onMouseMoveHandler, computeDx, clamp, moveMultiplier, dxLowerBound,
      dxUpperBound, COLUMN_MIN_WIDTH_IN_PIXELS, toPrecision]

/-- Claim C9 (amended): for every drag step the clamped delta guarantees:
the left column never goes below the minimum pixel width if it started at
or above it; on a right-edge drag the table never exceeds its container
if it started within it (and in general never exceeds the larger of its
initial width and the container — a table already overflowing can only
shrink); on an internal-boundary drag the right column likewise never
goes below the minimum if it started at or above it; and a clamped delta
of zero performs no view update at all. -/
theorem c9_amended :
    (∀ (d : ResizingData) (x : ℚ),
      COLUMN_MIN_WIDTH_IN_PIXELS ≤ d.widths.leftColumnWidth →
      COLUMN_MIN_WIDTH_IN_PIXELS ≤ d.widths.leftColumnWidth + computeDx d x) ∧
    (∀ (d : ResizingData) (x : ℚ),
      d.flags.isRightEdge = true →
      d.widths.tableWidth ≤ d.widths.viewFigureParentWidth →
      d.widths.tableWidth + computeDx d x ≤ d.widths.viewFigureParentWidth) ∧
    (∀ (d : ResizingData) (x : ℚ),
      d.flags.isRightEdge = true →
      d.widths.tableWidth + computeDx d x
        ≤ max d.widths.viewFigureParentWidth d.widths.tableWidth) ∧
    (∀ (d : ResizingData) (x : ℚ),
      d.flags.isRightEdge = false →
      COLUMN_MIN_WIDTH_IN_PIXELS ≤ d.widths.rightColumnWidth →
      COLUMN_MIN_WIDTH_IN_PIXELS ≤ d.widths.rightColumnWidth - computeDx d x) ∧
    (∀ (s : ControllerState) (d : ResizingData) (x : ℚ),
      s.isResizingActive = true → s.isResizingAllowed = true →
      s.resizingData = some d → computeDx d x = 0 →
      onMouseMoveHandler s x = (s, [])) := by
  have hlh : ∀ d : ResizingData,
      min (dxLowerBound d) 0 ≤ max (dxUpperBound d) 0 :=
    fun d => le_trans (min_le_right _ _) (le_max_right _ _)
  refine ⟨?_, ?_, ?_, ?_, ?_⟩
  · intro d x h
    have hlower : dxLowerBound d
        = -d.widths.leftColumnWidth + COLUMN_MIN_WIDTH_IN_PIXELS := rfl
    have hb : dxLowerBound d ≤ 0 := by
      rw [hlower]
      linarith
    have h1 := le_clamp ((x - d.columnPosition) * moveMultiplier d)
      (min (dxLowerBound d) 0) (max (dxUpperBound d) 0) (hlh d)
    unfold computeDx
    rw [min_eq_left hb] at h1 ⊢
    linarith [hlower]
  · intro d x hre h
    have hupper : dxUpperBound d
        = d.widths.viewFigureParentWidth - d.widths.tableWidth := by
      unfold dxUpperBound
      rw [hre]
      simp
    have hb : 0 ≤ dxUpperBound d := by
      rw [hupper]
      linarith
    have h1 := clamp_le ((x - d.columnPosition) * moveMultiplier d)
      (min (dxLowerBound d) 0) (max (dxUpperBound d) 0) (hlh d)
    unfold computeDx
    rw [max_eq_left hb] at h1 ⊢
    linarith [hupper]
  · intro d x hre
    have hupper : dxUpperBound d
        = d.widths.viewFigureParentWidth - d.widths.tableWidth := by
      unfold dxUpperBound
      rw [hre]
      simp
    have h1 := clamp_le ((x - d.columnPosition) * moveMultiplier d)
      (min (dxLowerBound d) 0) (max (dxUpperBound d) 0) (hlh d)
    unfold computeDx
    rcases le_total d.widths.tableWidth d.widths.viewFigureParentWidth with hle | hle
    · have hb : 0 ≤ dxUpperBound d := by
        rw [hupper]
        linarith
      rw [max_eq_left hb] at h1 ⊢
      rw [max_eq_left hle]
      linarith [hupper]
    · have hb : dxUpperBound d ≤ 0 := by
        rw [hupper]
        linarith
      rw [max_eq_right hb] at h1 ⊢
      rw [max_eq_right hle]
      linarith
  · intro d x hre h
    have hupper : dxUpperBound d
        = d.widths.rightColumnWidth - COLUMN_MIN_WIDTH_IN_PIXELS := by
      unfold dxUpperBound
      rw [hre]
      simp
    have hb : 0 ≤ dxUpperBound d := by
      rw [hupper]
      linarith
    have h1 := clamp_le ((x - d.columnPosition) * moveMultiplier d)
      (min (dxLowerBound d) 0) (max (dxUpperBound d) 0) (hlh d)
    unfold computeDx
    rw [max_eq_left hb] at h1 ⊢
    linarith [hupper]
  · intro s d x hactive hallowed hdata hdx
    simp [onMouseMoveHandler, hactive, hallowed, hdata, hdx]

/-- Witness for c9_amended at a concrete input: with left column 100, the
drag step of −10 keeps it at 90, above the 40 pixel minimum, and at the
anchor position the handler does nothing. -/
theorem c9_amended_witness :
    (let d : ResizingData :=
      { columnPosition := 0, leftColumnIndex := 0,
        flags := { isRightEdge := false, isTableCentered := true, isLtrContent := true },
        widths := { viewFigureParentWidth := 1000, viewFigureWidth := 500,
                    tableWidth := 500, leftColumnWidth := 100, rightColumnWidth := 100 } };
    COLUMN_MIN_WIDTH_IN_PIXELS ≤ d.widths.leftColumnWidth + computeDx d (-10) ∧
      COLUMN_MIN_WIDTH_IN_PIXELS ≤ d.widths.rightColumnWidth - computeDx d (-10)) := by
  constructor
  · exact c9_amended.1 _ (-10)
      (by norm_num [COLUMN_MIN_WIDTH_IN_PIXELS])
  · exact c9_amended.2.2.2.1 _ (-10) rfl
      (by norm_num [COLUMN_MIN_WIDTH_IN_PIXELS])

